import Mathlib

/-!
Shallow embedding of `src/terark/db/dfadb/nlt_store.cpp` (NestLoudsTrieStore):
the two-pass dictionary build `build_by_iter`, the sample-ratio computation,
the logical/physical id reconciliation walk, the path normalization of
`load`/`save`, and the dynamic-cast dispatch of `save`.

Records are byte strings, modelled as `List Nat`.  Bitmaps are modelled as
predicates `Nat → Bool` (`terark_bit_test` on logical ids).  The random
generator `std::mt19937_64` is modelled as an arbitrary draw stream
`draw : Nat → Nat` compared against an abstract threshold `bound`
(`sampleUpperBound` in the source); the sampling condition
`!rec.empty() && random() < sampleUpperBound` consumes one draw only when
the record is non-empty, exactly as the C++ short-circuit does.
-/

namespace TerarkNlt

/-- A record: a byte string (`valvec<byte>` / `fstring` in the source). -/
abbrev Rec := List Nat

/-- The fallback sample literal `"Hello World!"` from `emptyCheckProtect`
(line 117), as ASCII byte codes. -/
def fallbackSample : Rec := [72, 101, 108, 108, 111, 32, 87, 111, 114, 108, 100, 33]

/-- `emptyCheckProtect` (lines 113-121): if no sample was taken
(`0 == sampleLenSum`, where the call sites pass the count `sampled`),
add the last record if it is non-empty, otherwise the fallback literal.
The builder's sample intake is modelled as the list of samples so far. -/
def emptyCheckProtect (sampleLenSum : Nat) (rec : Rec) (samples : List Rec) : List Rec :=
  if sampleLenSum = 0 then
    if rec = [] then samples ++ [fallbackSample] else samples ++ [rec]
  else samples

/-! ## Path normalization of `load` and `save` (lines 258-268) -/

/-- The `".nlt"` suffix appended by `load`/`save`, as characters. -/
def nltSuffix : List Char := ['.', 'n', 'l', 't']

/-- Path normalization in `NestLoudsTrieStore::load` (lines 259-261):
`fstring(path).endsWith(".nlt") ? path : path + ".nlt"`. -/
def loadPath (p : List Char) : List Char :=
  if nltSuffix.isSuffixOf p then p else p ++ nltSuffix

/-- Path normalization in `NestLoudsTrieStore::save` (lines 266-268):
the same expression as in `load`. -/
def savePath (p : List Char) : List Char :=
  if nltSuffix.isSuffixOf p then p else p ++ nltSuffix

/-! ## Backend dispatch of `save` (lines 265-281) -/

/-- The concrete dynamic type `m_store` can have: the three
`NestLoudsTrieBlobStore` variants are `BaseDFA` subclasses (built by
`nltBuild`, lines 77-88); `FastZipBlobStore` and `DictZipBlobStore` are
plain `BlobStore`s; `otherBlobStore` stands for any other `BlobStore`
subtype (the constructor at line 15 accepts an arbitrary `BlobStore*`). -/
inductive BackendKind
  | nltIL
  | nltSE
  | nltSE512
  | fastZip
  | dictZip
  | otherBlobStore
  deriving DecidableEq

/-- Whether `dynamic_cast<BaseDFA*>` succeeds on this backend. -/
def isBaseDFA : BackendKind → Bool
  | .nltIL => true
  | .nltSE => true
  | .nltSE512 => true
  | _ => false

/-- Whether `dynamic_cast<FastZipBlobStore*>` succeeds on this backend. -/
def isFastZip : BackendKind → Bool
  | .fastZip => true
  | _ => false

/-- Whether `dynamic_cast<DictZipBlobStore*>` succeeds on this backend. -/
def isDictZip : BackendKind → Bool
  | .dictZip => true
  | _ => false

/-- The action `save` takes after normalizing the path: one of the three
serializers, or `THROW_STD(invalid_argument, "Unexpected")` (line 279),
the explicit failure on an unrecognized backend. -/
inductive SaveAction
  | dfaSaveMmap
  | fastZipSaveMmap
  | dictZipSaveMmap
  | throwInvalidArgument
  deriving DecidableEq

/-- The `dynamic_cast` chain of `NestLoudsTrieStore::save` (lines 269-280),
in source order: `BaseDFA`, then `FastZipBlobStore`, then
`DictZipBlobStore`, else throw. -/
def saveDispatch (k : BackendKind) : SaveAction :=
  if isBaseDFA k then .dfaSaveMmap
  else if isFastZip k then .fastZipSaveMmap
  else if isDictZip k then .dictZipSaveMmap
  else .throwInvalidArgument

/-- The serializer that belongs to each backend variant (`none` for a
variant that has no serializer of its own). -/
def matchingSerializer : BackendKind → Option SaveAction
  | .nltIL => some .dfaSaveMmap
  | .nltSE => some .dfaSaveMmap
  | .nltSE512 => some .dfaSaveMmap
  | .fastZip => some .fastZipSaveMmap
  | .dictZip => some .dictZipSaveMmap
  | .otherBlobStore => none

/-! ## Sample ratio computation (lines 132-141), over exact rationals -/

/-- `FLT_EPSILON` = 2^-23, the comparison constant at line 132. -/
def fltEpsilon : ℚ := 1 / 2 ^ 23

/-- `INT32_MAX` = 2^31 - 1, used at lines 137-138. -/
def int32Max : ℚ := 2 ^ 31 - 1

/-- The effective sample ratio computed by `build_by_iter` (lines 132-141):
start from the schema ratio, or 0.05 when it is not above `FLT_EPSILON`;
shrink to `INT32_MAX * 0.95 / dataSize` when
`dataSize * ratio >= INT32_MAX * 0.95`; cap at 0.5.  The double
arithmetic of the source is modelled by exact rationals
(0.95 = 19/20, 0.05 = 1/20). -/
def effectiveSampleRatio (r0 dataSize : ℚ) : ℚ :=
  let r1 := if r0 > fltEpsilon then r0 else 1 / 20
  let r2 := if dataSize * r1 ≥ int32Max * (19 / 20) then int32Max * (19 / 20) / dataSize else r1
  min r2 (1 / 2)

/-! ## The reconciliation walk and the two passes of `build_by_iter` -/

/-- Diagnostic data printed by the abort paths of `build_by_iter`
(lines 201-205 and 234-238): the logical id being processed and the
physical id the walk had computed for it. -/
structure AbortInfo where
  logicId : Nat
  physicId : Nat
  deriving DecidableEq

/-- The logical-to-physical id accounting shared by both loops of the
purge-bitmap branch (lines 196-218 and 229-245): walk the given logical
ids with a physical counter `p`; a purged logical id is skipped without
advancing `p`; a non-purged logical id `l` is paired with the current
`p`, which then advances. -/
def reconWalk (isPurged : Nat → Bool) : List Nat → Nat → List (Nat × Nat)
  | [], _ => []
  | l :: rest, p =>
    if isPurged l then reconWalk isPurged rest p
    else (l, p) :: reconWalk isPurged rest (p + 1)

/-- State threaded through the pass-1 loop of the purge-bitmap branch
(lines 190-218).  `buf` is the `rec` buffer; `fetched` records the
physical ids for which `seekExact` was issued (live records that pass 1
fetches and may sample); `drawIdx` indexes the random draw stream. -/
structure P1St where
  physicId : Nat
  newPhysicId : Nat
  sampled : Nat
  samples : List Rec
  buf : Rec
  fetched : List Nat
  drawIdx : Nat
  deriving DecidableEq

/-- Initial pass-1 state (lines 190-194 plus the empty `rec` of line 161). -/
def p1Init : P1St := ⟨0, 0, 0, [], [], [], 0⟩

/-- Pass 1 of the purge-bitmap branch (lines 196-218): for each logical id,
if not purged and not deleted, `seekExact(physicId, &rec)`; a miss is the
abort path of lines 200-205; otherwise sample the record when it is
non-empty and the draw is below the bound, and advance `newPhysicId`;
`physicId` advances for every non-purged logical id. -/
def pass1P (store : List Rec) (isDel isPurged : Nat → Bool)
    (draw : Nat → Nat) (bound : Nat) :
    List Nat → P1St → Except AbortInfo P1St
  | [], st => .ok st
  | logicId :: rest, st =>
    if isPurged logicId then
      pass1P store isDel isPurged draw bound rest st
    else if isDel logicId then
      pass1P store isDel isPurged draw bound rest { st with physicId := st.physicId + 1 }
    else
      match store[st.physicId]? with
      | none => .error ⟨logicId, st.physicId⟩
      | some r =>
        pass1P store isDel isPurged draw bound rest
          { physicId := st.physicId + 1
            newPhysicId := st.newPhysicId + 1
            sampled := st.sampled + (if r = [] then 0 else if draw st.drawIdx < bound then 1 else 0)
            samples := st.samples ++ (if r = [] then [] else if draw st.drawIdx < bound then [r] else [])
            buf := r
            fetched := st.fetched ++ [st.physicId]
            drawIdx := st.drawIdx + (if r = [] then 0 else 1) }

/-- State threaded through the pass-2 loop of the purge-bitmap branch
(lines 228-245).  `cursor` is the sequential iterator position (the id
`increment` would yield as `physicId2`); `submitted` are the physical
ids whose records are passed to `addRecord`, `submittedRecs` the records
themselves. -/
structure P2St where
  cursor : Nat
  physicId : Nat
  submitted : List Nat
  submittedRecs : List Rec
  deriving DecidableEq

/-- Initial pass-2 state (`iter.reset()` and `physicId = 0`, lines 227-228). -/
def p2Init : P2St := ⟨0, 0, [], []⟩

/-- Pass 2 of the purge-bitmap branch (lines 229-245): for each non-purged
logical id, advance the iterator; end-of-data or a physical id different
from the predicted one is the abort path of lines 233-239; a non-deleted
record is submitted via `addRecord`. -/
def pass2P (store : List Rec) (isDel isPurged : Nat → Bool) :
    List Nat → P2St → Except AbortInfo P2St
  | [], st => .ok st
  | logicId :: rest, st =>
    if isPurged logicId then
      pass2P store isDel isPurged rest st
    else
      match store[st.cursor]? with
      | none => .error ⟨logicId, st.physicId⟩
      | some r =>
        if st.physicId = st.cursor then
          pass2P store isDel isPurged rest
            { cursor := st.cursor + 1
              physicId := st.physicId + 1
              submitted := st.submitted ++ (if isDel logicId then [] else [st.physicId])
              submittedRecs := st.submittedRecs ++ (if isDel logicId then [] else [r]) }
        else .error ⟨logicId, st.physicId⟩

/-- State threaded through the pass-1 loop of the no-purge branch
(lines 167-177).  `recId` is the loop variable written by `increment`
(`none` models the uninitialized `llong recId` of line 168 before the
first successful `increment`); `liveVisited` records the physical ids
that pass the liveness test and may be sampled. -/
structure N1St where
  recId : Option Nat
  sampled : Nat
  samples : List Rec
  buf : Rec
  liveVisited : List Nat
  drawIdx : Nat
  deriving DecidableEq

/-- Initial no-purge pass-1 state. -/
def n1Init : N1St := ⟨none, 0, [], [], [], 0⟩

/-- Pass 1 of the no-purge branch (lines 170-177): `increment` yields every
physical record in order; a record not marked deleted is sampled when it
is non-empty and the draw is below the bound.  The input list is the
enumerated store (`(physical id, record)` pairs in order). -/
def pass1N (isDel : Nat → Bool) (draw : Nat → Nat) (bound : Nat) :
    List (Nat × Rec) → N1St → N1St
  | [], st => st
  | (recId, r) :: rest, st =>
    if isDel recId then
      pass1N isDel draw bound rest { st with recId := some recId, buf := r }
    else
      pass1N isDel draw bound rest
        { recId := some recId
          sampled := st.sampled + (if r = [] then 0 else if draw st.drawIdx < bound then 1 else 0)
          samples := st.samples ++ (if r = [] then [] else if draw st.drawIdx < bound then [r] else [])
          buf := r
          liveVisited := st.liveVisited ++ [recId]
          drawIdx := st.drawIdx + (if r = [] then 0 else 1) }

/-- Pass 2 of the no-purge branch (lines 181-186): `increment` yields every
physical record in order; each record not marked deleted is submitted via
`addRecord`.  Returns the submitted physical ids and records. -/
def pass2N (isDel : Nat → Bool) :
    List (Nat × Rec) → List Nat × List Rec → List Nat × List Rec
  | [], acc => acc
  | (recId, r) :: rest, acc =>
    if isDel recId then pass2N isDel rest acc
    else pass2N isDel rest (acc.1 ++ [recId], acc.2 ++ [r])

/-- The ordered sequence of physical ids of live (non-purged, non-deleted)
logical ids, starting the physical counter at `p`: the id sequence both
passes of the purge-bitmap branch must realize. -/
def liveWalkFrom (isDel isPurged : Nat → Bool) : List Nat → Nat → List Nat
  | [], _ => []
  | l :: rest, p =>
    if isPurged l then liveWalkFrom isDel isPurged rest p
    else if isDel l then liveWalkFrom isDel isPurged rest (p + 1)
    else p :: liveWalkFrom isDel isPurged rest (p + 1)

/-! ## The whole purge-bitmap build (lines 188-255), with lock accounting -/

/-- The phases of a build, in the order the source runs them: ratio
computation (lines 132-141), pass 1 (lines 196-224), `prepare`
(line 226), pass 2 (lines 229-250), `completeBuild` (lines 252-255). -/
inductive Phase
  | sizing
  | sampling
  | preparing
  | recording
  | completing
  deriving DecidableEq

/-- Observable outcome of a completed purge-branch build.  The two
mismatch flags record the non-fatal `physicId != physicNum` stderr
reports of lines 219-223 and 246-250; `lockReleased` records the
explicit `lock.unlock()` of line 254. -/
structure BuildResult where
  pass1Mismatch : Bool
  pass2Mismatch : Bool
  prepareCount : Nat
  sampleSet : List Rec
  submitted : List Rec
  lockReleased : Bool
  deriving DecidableEq

/-- Outcome of a purge-branch build: either `fprintf` + `abort()`
(process termination, lines 200-205 or 234-238), with the flag telling
whether `DictZip_reduceMemMutex` was held at termination, or normal
completion producing a store (line 255). -/
inductive BuildOut
  | procAbort (info : AbortInfo) (lockHeld : Bool)
  | completed (res : BuildResult)
  deriving DecidableEq

/-- The purge-bitmap branch of `build_by_iter` (lines 128-141 and 188-255):
pass 1 unlocked, then `emptyCheckProtect`, then `lock.lock()` (line 225),
`prepare(newPhysicId, ...)` (line 226), pass 2, `completeBuild`, unlock.
Returns the phase trace, each phase paired with whether the mutex is held
during it, and the outcome.  `logicNum` is `isPurged->size()`;
`store.length` is `numDataRows()` (`physicNum`). -/
def build_by_iter_purged (store : List Rec) (isDel isPurged : Nat → Bool)
    (draw : Nat → Nat) (bound : Nat) (logicNum : Nat) :
    List (Phase × Bool) × BuildOut :=
  let t0 := [(Phase.sizing, false), (Phase.sampling, false)]
  match pass1P store isDel isPurged draw bound (List.range logicNum) p1Init with
  | .error info => (t0, .procAbort info false)
  | .ok s1 =>
    match pass2P store isDel isPurged (List.range logicNum) p2Init with
    | .error info =>
      (t0 ++ [(Phase.preparing, true), (Phase.recording, true)], .procAbort info true)
    | .ok s2 =>
      (t0 ++ [(Phase.preparing, true), (Phase.recording, true), (Phase.completing, true)],
       .completed
         { pass1Mismatch := decide (s1.physicId ≠ store.length)
           pass2Mismatch := decide (s2.physicId ≠ store.length)
           prepareCount := s1.newPhysicId
           sampleSet := emptyCheckProtect s1.sampled s1.buf s1.samples
           submitted := s2.submittedRecs
           lockReleased := true })

/-- The `prepare` count of the no-purge branch (line 180): `recId + 1`,
where `recId` is whatever the loop variable holds after the pass-1 loop
(`none` when the loop never ran, modelling the uninitialized variable). -/
def prepareCountN (store : List Rec) (isDel : Nat → Bool)
    (draw : Nat → Nat) (bound : Nat) : Option Nat :=
  match (pass1N isDel draw bound store.enum n1Init).recId with
  | some r => some (r + 1)
  | none => none

/-! ## Theorems -/

/-- C10: `save` and `load` normalize the target path identically — each
appends the `".nlt"` suffix exactly when the given path does not already
end with `".nlt"` — so for every path `p`, `load p` after `save p` reads
exactly the file `save` wrote, whether or not the caller included the
suffix (and the written path always ends with `".nlt"`). -/
theorem save_load_path_agree (p : List Char) :
    loadPath p = savePath p ∧
    (nltSuffix.isSuffixOf p = false → savePath p = p ++ nltSuffix) ∧
    (nltSuffix.isSuffixOf p = true → savePath p = p) ∧
    nltSuffix.isSuffixOf (savePath p) = true := by
  refine ⟨rfl, ?_, ?_, ?_⟩
  · intro h; simp [savePath, h]
  · intro h; simp [savePath, h]
  · unfold savePath
    split_ifs with h
    · exact h
    · exact List.isSuffixOf_iff_suffix.2 (List.suffix_append p nltSuffix)

/-- Witness for `save_load_path_agree` at the concrete path `"a"`. -/
theorem save_load_path_agree_witness :
    nltSuffix.isSuffixOf ['a'] = false ∧ savePath ['a'] = ['a'] ++ nltSuffix :=
  ⟨by decide, (save_load_path_agree ['a']).2.1 (by decide)⟩

/-- C9: `save` dispatches to exactly the serializer matching the
instance's own backend variant, and for an unrecognized backend variant
it fails explicitly (`THROW_STD(invalid_argument, "Unexpected")`, the
UnsupportedBackendError of the spec) instead of silently doing nothing. -/
theorem save_dispatch_matches_variant :
    (∀ k : BackendKind,
      saveDispatch k = (matchingSerializer k).getD SaveAction.throwInvalidArgument) ∧
    saveDispatch BackendKind.otherBlobStore = SaveAction.throwInvalidArgument := by
  constructor
  · intro k; cases k <;> rfl
  · rfl

/-- The cap at 0.5 keeps positivity, the 0.5 bound, and any product bound
that its argument already satisfied. -/
theorem min_half_bounds (r2 S : ℚ) (h2 : 0 < r2) (hS : 0 < S)
    (hb : r2 * S < (19 / 20) * 2 ^ 31) :
    0 < min r2 (1 / 2) ∧ min r2 (1 / 2) ≤ 1 / 2 ∧
    min r2 (1 / 2) * S < (19 / 20) * 2 ^ 31 :=
  ⟨lt_min h2 (by norm_num), min_le_right _ _,
   lt_of_le_of_lt (mul_le_mul_of_nonneg_right (min_le_left _ _) hS.le) hb⟩

/-- C2: for every total inflated byte size `S > 0` and requested ratio
`r0 ≥ 0`, the effective sample ratio computed by `build_by_iter`
satisfies `0 < r' ≤ 0.5` and `r' * S < 0.95 * 2^31` strictly (the source
shrinks against `INT32_MAX * 0.95 = 0.95 * (2^31 - 1)`, which is below
`0.95 * 2^31`, so the strict bound holds in every branch). -/
theorem sample_ratio_safe (r0 S : ℚ) (_hr0 : 0 ≤ r0) (hS : 0 < S) :
    0 < effectiveSampleRatio r0 S ∧
    effectiveSampleRatio r0 S ≤ 1 / 2 ∧
    effectiveSampleRatio r0 S * S < (19 / 20) * 2 ^ 31 := by
  have heps : (0 : ℚ) < fltEpsilon := by norm_num [fltEpsilon]
  have hMpos : (0 : ℚ) < int32Max * (19 / 20) := by norm_num [int32Max]
  have hM : int32Max * (19 / 20) < (19 / 20) * 2 ^ 31 := by norm_num [int32Max]
  simp only [effectiveSampleRatio]
  split_ifs with h1 h2 h2
  · refine min_half_bounds _ _ (div_pos hMpos hS) hS ?_
    rw [div_mul_cancel₀ _ hS.ne']
    exact hM
  · refine min_half_bounds _ _ (lt_trans heps h1) hS ?_
    calc r0 * S = S * r0 := mul_comm _ _
    _ < int32Max * (19 / 20) := lt_of_not_ge h2
    _ < (19 / 20) * 2 ^ 31 := hM
  · refine min_half_bounds _ _ (div_pos hMpos hS) hS ?_
    rw [div_mul_cancel₀ _ hS.ne']
    exact hM
  · refine min_half_bounds _ _ (by norm_num) hS ?_
    calc (1 : ℚ) / 20 * S = S * (1 / 20) := mul_comm _ _
    _ < int32Max * (19 / 20) := lt_of_not_ge h2
    _ < (19 / 20) * 2 ^ 31 := hM

/-- Witness for `sample_ratio_safe` at `r0 = 0`, `S = 100`. -/
theorem sample_ratio_safe_witness :
    0 < effectiveSampleRatio 0 100 ∧
    effectiveSampleRatio 0 100 ≤ 1 / 2 ∧
    effectiveSampleRatio 0 100 * 100 < (19 / 20) * 2 ^ 31 :=
  sample_ratio_safe 0 100 (by norm_num) (by norm_num)

/-- The logical ids visited by the reconciliation walk are exactly the
non-purged ids, in order. -/
theorem reconWalk_map_fst (isPurged : Nat → Bool) :
    ∀ (ls : List Nat) (p : Nat),
      (reconWalk isPurged ls p).map Prod.fst = ls.filter (fun l => !isPurged l) := by
  intro ls
  induction ls with
  | nil => intro p; simp [reconWalk]
  | cons l rest ih =>
    intro p
    by_cases h : isPurged l <;> simp [reconWalk, h, ih, List.filter_cons]

/-- The physical ids produced by the reconciliation walk are consecutive
from the starting counter, one per non-purged logical id. -/
theorem reconWalk_map_snd (isPurged : Nat → Bool) :
    ∀ (ls : List Nat) (p : Nat),
      (reconWalk isPurged ls p).map Prod.snd
        = List.range' p (ls.filter (fun l => !isPurged l)).length := by
  intro ls
  induction ls with
  | nil => intro p; simp [reconWalk]
  | cons l rest ih =>
    intro p
    by_cases h : isPurged l
    · simp [reconWalk, h, ih, List.filter_cons]
    · simp [reconWalk, h, ih, List.filter_cons, List.range'_succ]

/-- Splitting a list by a predicate preserves its length. -/
theorem filter_not_length (q : Nat → Bool) :
    ∀ ls : List Nat, (ls.filter (fun l => !q l)).length + (ls.filter q).length = ls.length := by
  intro ls
  induction ls with
  | nil => simp
  | cons l rest ih => by_cases h : q l <;> simp [List.filter_cons, h] <;> omega

/-- With no purged ids, the walk pairs every logical id with itself. -/
theorem reconWalk_id :
    ∀ (n s : Nat),
      reconWalk (fun _ => false) (List.range' s n) s
        = (List.range' s n).map (fun k => (k, k)) := by
  intro n
  induction n with
  | zero => intro s; simp [reconWalk]
  | succ m ih => intro s; simp [List.range'_succ, reconWalk, ih (s + 1)]

/-- C3: the reconciliation walk of `build_by_iter` maps logical ids to
physical ids correctly in both modes: with no purged ids the physical id
of logical id `k` is `k`; with a purge bitmap, the walk visits exactly
the non-purged logical ids in order, the `j`-th of them receives
physical id `j`, a purged id consumes no physical id, and the number of
physical ids produced is `N` minus the number of purged ids. -/
theorem reconciler_mapping (isPurged : Nat → Bool) (N : Nat) :
    reconWalk (fun _ => false) (List.range N) 0 = (List.range N).map (fun k => (k, k)) ∧
    (reconWalk isPurged (List.range N) 0).map Prod.fst
      = (List.range N).filter (fun l => !isPurged l) ∧
    (reconWalk isPurged (List.range N) 0).map Prod.snd
      = List.range ((List.range N).filter (fun l => !isPurged l)).length ∧
    (reconWalk isPurged (List.range N) 0).length
      = N - ((List.range N).filter isPurged).length := by
  refine ⟨?_, reconWalk_map_fst isPurged _ 0, ?_, ?_⟩
  · rw [List.range_eq_range']
    exact reconWalk_id N 0
  · simp [reconWalk_map_snd, List.range_eq_range']
  · have h1 := congrArg List.length (reconWalk_map_fst isPurged (List.range N) 0)
    rw [List.length_map] at h1
    have h2 := filter_not_length isPurged (List.range N)
    rw [List.length_range] at h2
    omega

/-- When pass 1 of the purge branch completes, the physical ids it fetched
(and may have sampled) extend the accumulated list by the live walk from
the current physical counter. -/
theorem pass1P_ok_fetched (store : List Rec) (isDel isPurged : Nat → Bool)
    (draw : Nat → Nat) (bound : Nat) :
    ∀ (ls : List Nat) (st s1 : P1St),
      pass1P store isDel isPurged draw bound ls st = .ok s1 →
      s1.fetched = st.fetched ++ liveWalkFrom isDel isPurged ls st.physicId := by
  intro ls
  induction ls with
  | nil =>
    intro st s1 h
    simp only [pass1P, Except.ok.injEq] at h
    simp [liveWalkFrom, ← h]
  | cons l rest ih =>
    intro st s1 h
    by_cases hp : isPurged l
    · simp only [pass1P, hp, if_true] at h
      simpa [liveWalkFrom, hp] using ih st s1 h
    · by_cases hd : isDel l
      · simp only [pass1P, hp, hd, Bool.false_eq_true, if_false, if_true] at h
        simpa [liveWalkFrom, hp, hd] using ih _ _ h
      · cases hg : store[st.physicId]? with
        | none => simp [pass1P, hp, hd, hg] at h
        | some r =>
          simp only [pass1P, hp, hd, hg, Bool.false_eq_true, if_false] at h
          have e := ih _ _ h
          simp only at e
          rw [e]
          simp [liveWalkFrom, hp, hd]

/-- When pass 2 of the purge branch completes from a state whose iterator
cursor agrees with its physical counter, the physical ids it submitted
via `addRecord` extend the accumulated list by the same live walk. -/
theorem pass2P_ok_submitted (store : List Rec) (isDel isPurged : Nat → Bool) :
    ∀ (ls : List Nat) (st s2 : P2St),
      pass2P store isDel isPurged ls st = .ok s2 →
      st.cursor = st.physicId →
      s2.submitted = st.submitted ++ liveWalkFrom isDel isPurged ls st.physicId := by
  intro ls
  induction ls with
  | nil =>
    intro st s2 h _
    simp only [pass2P, Except.ok.injEq] at h
    simp [liveWalkFrom, ← h]
  | cons l rest ih =>
    intro st s2 h hc
    by_cases hp : isPurged l
    · simp only [pass2P, hp, if_true] at h
      simpa [liveWalkFrom, hp] using ih st s2 h hc
    · cases hg : store[st.cursor]? with
      | none => simp [pass2P, hp, hg] at h
      | some r =>
        simp only [pass2P, hp, hg, Bool.false_eq_true, if_false] at h
        rw [if_pos hc.symm] at h
        have e := ih _ _ h (by simp [hc])
        simp only at e
        rw [e]
        by_cases hd : isDel l <;> simp [liveWalkFrom, hp, hd]

/-- When pass 1 of the purge branch completes, `newPhysicId` has counted
exactly the live (non-purged, non-deleted) logical ids. -/
theorem pass1P_ok_newPhysicId (store : List Rec) (isDel isPurged : Nat → Bool)
    (draw : Nat → Nat) (bound : Nat) :
    ∀ (ls : List Nat) (st s1 : P1St),
      pass1P store isDel isPurged draw bound ls st = .ok s1 →
      s1.newPhysicId
        = st.newPhysicId + (ls.filter (fun l => !isPurged l && !isDel l)).length := by
  intro ls
  induction ls with
  | nil =>
    intro st s1 h
    simp only [pass1P, Except.ok.injEq] at h
    simp [← h]
  | cons l rest ih =>
    intro st s1 h
    by_cases hp : isPurged l
    · simp only [pass1P, hp, if_true] at h
      simpa [List.filter_cons, hp] using ih st s1 h
    · by_cases hd : isDel l
      · simp only [pass1P, hp, hd, Bool.false_eq_true, if_false, if_true] at h
        simpa [List.filter_cons, hp, hd] using ih _ _ h
      · cases hg : store[st.physicId]? with
        | none => simp [pass1P, hp, hd, hg] at h
        | some r =>
          simp only [pass1P, hp, hd, hg, Bool.false_eq_true, if_false] at h
          have e := ih _ _ h
          simp only at e
          rw [e]
          simp [List.filter_cons, hp, hd]
          omega

/-- When pass 1 of the purge branch completes, the number of samples in
the builder equals the `sampled` counter. -/
theorem pass1P_ok_samples_length (store : List Rec) (isDel isPurged : Nat → Bool)
    (draw : Nat → Nat) (bound : Nat) :
    ∀ (ls : List Nat) (st s1 : P1St),
      pass1P store isDel isPurged draw bound ls st = .ok s1 →
      st.samples.length = st.sampled → s1.samples.length = s1.sampled := by
  intro ls
  induction ls with
  | nil =>
    intro st s1 h hlen
    simp only [pass1P, Except.ok.injEq] at h
    rw [← h]
    exact hlen
  | cons l rest ih =>
    intro st s1 h hlen
    by_cases hp : isPurged l
    · simp only [pass1P, hp, if_true] at h
      exact ih st s1 h hlen
    · by_cases hd : isDel l
      · simp only [pass1P, hp, hd, Bool.false_eq_true, if_false, if_true] at h
        exact ih _ _ h hlen
      · cases hg : store[st.physicId]? with
        | none => simp [pass1P, hp, hd, hg] at h
        | some r =>
          simp only [pass1P, hp, hd, hg, Bool.false_eq_true, if_false] at h
          refine ih _ _ h ?_
          by_cases hr : r = [] <;> by_cases hs : draw st.drawIdx < bound <;>
            simp [hr, hs, hlen]

/-- When pass 1 of the purge branch hits the abort path, the reported
physical id really has no record in the store, and the reported logical
id is a live member of the walked ids. -/
theorem pass1P_error_miss (store : List Rec) (isDel isPurged : Nat → Bool)
    (draw : Nat → Nat) (bound : Nat) :
    ∀ (ls : List Nat) (st : P1St) (info : AbortInfo),
      pass1P store isDel isPurged draw bound ls st = .error info →
      store[info.physicId]? = none ∧ isPurged info.logicId = false ∧
      isDel info.logicId = false ∧ info.logicId ∈ ls := by
  intro ls
  induction ls with
  | nil => intro st info h; simp [pass1P] at h
  | cons l rest ih =>
    intro st info h
    by_cases hp : isPurged l
    · simp only [pass1P, hp, if_true] at h
      have e := ih _ _ h
      exact ⟨e.1, e.2.1, e.2.2.1, List.mem_cons_of_mem _ e.2.2.2⟩
    · by_cases hd : isDel l
      · simp only [pass1P, hp, hd, Bool.false_eq_true, if_false, if_true] at h
        have e := ih _ _ h
        exact ⟨e.1, e.2.1, e.2.2.1, List.mem_cons_of_mem _ e.2.2.2⟩
      · cases hg : store[st.physicId]? with
        | none =>
          simp only [pass1P, hp, hd, hg, Bool.false_eq_true, if_false,
            Except.error.injEq] at h
          rw [← h]
          exact ⟨hg, by simpa using hp, by simpa using hd, List.mem_cons_self l rest⟩
        | some r =>
          simp only [pass1P, hp, hd, hg, Bool.false_eq_true, if_false] at h
          have e := ih _ _ h
          exact ⟨e.1, e.2.1, e.2.2.1, List.mem_cons_of_mem _ e.2.2.2⟩

/-- The live physical ids visited by pass 1 of the no-purge branch extend
the accumulator by the non-deleted enumerated ids, in order. -/
theorem pass1N_liveVisited (isDel : Nat → Bool) (draw : Nat → Nat) (bound : Nat) :
    ∀ (l : List (Nat × Rec)) (st : N1St),
      (pass1N isDel draw bound l st).liveVisited
        = st.liveVisited ++ (l.filter (fun pr => !isDel pr.1)).map Prod.fst := by
  intro l
  induction l with
  | nil => intro st; simp [pass1N]
  | cons pr rest ih =>
    intro st
    obtain ⟨recId, r⟩ := pr
    by_cases hd : isDel recId
    · simp [pass1N, hd, ih, List.filter_cons]
    · simp [pass1N, hd, ih, List.filter_cons]

/-- The physical ids submitted by pass 2 of the no-purge branch extend
the accumulator by the non-deleted enumerated ids, in order. -/
theorem pass2N_ids (isDel : Nat → Bool) :
    ∀ (l : List (Nat × Rec)) (acc : List Nat × List Rec),
      (pass2N isDel l acc).1
        = acc.1 ++ (l.filter (fun pr => !isDel pr.1)).map Prod.fst := by
  intro l
  induction l with
  | nil => intro acc; simp [pass2N]
  | cons pr rest ih =>
    intro acc
    obtain ⟨recId, r⟩ := pr
    by_cases hd : isDel recId
    · simp [pass2N, hd, ih, List.filter_cons]
    · simp [pass2N, hd, ih, List.filter_cons]

/-- In pass 1 of the no-purge branch, the number of samples in the builder
equals the `sampled` counter. -/
theorem pass1N_samples_length (isDel : Nat → Bool) (draw : Nat → Nat) (bound : Nat) :
    ∀ (l : List (Nat × Rec)) (st : N1St),
      st.samples.length = st.sampled →
      (pass1N isDel draw bound l st).samples.length
        = (pass1N isDel draw bound l st).sampled := by
  intro l
  induction l with
  | nil => intro st hlen; simpa [pass1N] using hlen
  | cons pr rest ih =>
    intro st hlen
    obtain ⟨recId, r⟩ := pr
    by_cases hd : isDel recId
    · simp only [pass1N, hd, if_true]
      exact ih _ hlen
    · simp only [pass1N, hd, Bool.false_eq_true, if_false]
      refine ih _ ?_
      by_cases hr : r = [] <;> by_cases hs : draw st.drawIdx < bound <;>
        simp [hr, hs, hlen]

/-- The loop variable `recId` after pass 1 of the no-purge branch is the
last id the iterator yielded (or the initial value if it yielded none). -/
theorem pass1N_recId (isDel : Nat → Bool) (draw : Nat → Nat) (bound : Nat) :
    ∀ (l : List (Nat × Rec)) (st : N1St),
      (pass1N isDel draw bound l st).recId
        = l.foldl (fun _ pr => some pr.1) st.recId := by
  intro l
  induction l with
  | nil => intro st; simp [pass1N]
  | cons pr rest ih =>
    intro st
    obtain ⟨recId, r⟩ := pr
    by_cases hd : isDel recId <;> simp [pass1N, hd, ih]

/-- Folding the last-id function over an enumeration of a non-empty list
yields the last index. -/
theorem foldl_enumFrom_last :
    ∀ (xs : List Rec) (k : Nat) (a : Option Nat), xs ≠ [] →
      List.foldl (fun _ (pr : Nat × Rec) => some pr.1) a (List.enumFrom k xs)
        = some (k + (xs.length - 1)) := by
  intro xs
  induction xs with
  | nil => intro k a h; exact absurd rfl h
  | cons x rest ih =>
    intro k a h
    cases rest with
    | nil => simp [List.enumFrom]
    | cons y t =>
      rw [List.enumFrom, List.foldl_cons]
      rw [ih (k + 1) (some k) (by simp)]
      congr 1
      simp
      omega

/-- `emptyCheckProtect` output when no sample was taken. -/
theorem emptyCheckProtect_zero (rec : Rec) (samples : List Rec) :
    emptyCheckProtect 0 rec samples
      = samples ++ [if rec = [] then fallbackSample else rec] := by
  unfold emptyCheckProtect
  by_cases hr : rec = [] <;> simp [hr]

/-- `emptyCheckProtect` never leaves the sample set empty, given that the
sample counter counts the samples. -/
theorem emptyCheckProtect_ne_nil (sampled : Nat) (rec : Rec) (samples : List Rec)
    (hlen : samples.length = sampled) :
    emptyCheckProtect sampled rec samples ≠ [] := by
  unfold emptyCheckProtect
  split_ifs with h0 hr
  · simp
  · simp
  · intro hnil
    rw [hnil] at hlen
    simp at hlen
    exact h0 hlen.symm

/-- C1: in both branches of `build_by_iter`, the sampling pass and the
recording pass visit the same ordered sequence of physical record ids
under the same liveness predicate (not purged and not deleted): in the
purge branch, the physical ids pass 1 fetches via `seekExact` (and may
sample) equal the physical ids pass 2 submits via `addRecord`; in the
no-purge branch, the ids passing the liveness test in pass 1 equal the
ids submitted in pass 2. -/
theorem passes_same_physical_sequence (store : List Rec) (isDel isPurged : Nat → Bool)
    (draw : Nat → Nat) (bound : Nat) (logicNum : Nat) (s1 : P1St) (s2 : P2St)
    (h1 : pass1P store isDel isPurged draw bound (List.range logicNum) p1Init = .ok s1)
    (h2 : pass2P store isDel isPurged (List.range logicNum) p2Init = .ok s2) :
    s1.fetched = s2.submitted ∧
    (pass1N isDel draw bound store.enum n1Init).liveVisited
      = (pass2N isDel store.enum ([], [])).1 := by
  constructor
  · have e1 := pass1P_ok_fetched store isDel isPurged draw bound _ _ _ h1
    have e2 := pass2P_ok_submitted store isDel isPurged _ _ _ h2 rfl
    simp only [p1Init, p2Init] at e1 e2
    rw [e1, e2]
  · rw [pass1N_liveVisited, pass2N_ids]
    simp [n1Init]

/-- Witness for `passes_same_physical_sequence` on a one-record store with
nothing deleted or purged. -/
theorem passes_same_physical_sequence_witness :
    pass1P [[1]] (fun _ => false) (fun _ => false) (fun _ => 0) 0 (List.range 1) p1Init
      = .ok ⟨1, 1, 0, [], [1], [0], 1⟩ ∧
    (⟨1, 1, 0, [], [1], [0], 1⟩ : P1St).fetched
      = (⟨1, 1, [0], [[1]]⟩ : P2St).submitted :=
  ⟨rfl,
   (passes_same_physical_sequence [[1]] (fun _ => false) (fun _ => false) (fun _ => 0) 0 1
     ⟨1, 1, 0, [], [1], [0], 1⟩ ⟨1, 1, [0], [[1]]⟩ rfl rfl).1⟩

/-- C4 counterexample: in the no-purge branch with two physical records of
which record 1 is deleted, `prepare` receives `recId + 1 = 2`, while the
number of live records is 1 — the claim fails in the no-purge mode. -/
theorem prepare_count_counterexample :
    prepareCountN [[1], [2]] (fun n => n == 1) (fun _ => 0) 0 = some 2 ∧
    ((List.range 2).filter (fun l => !(l == 1))).length = 1 ∧
    (2 : Nat) ≠ 1 := ⟨rfl, rfl, by decide⟩

/-- C4 amended: in the purge-bitmap branch, `prepare` receives
`newPhysicId`, the number of live (non-purged, non-deleted) records
counted by the sampling pass; in the no-purge branch, `prepare` receives
`recId + 1`, the total number of physical records in the store, which
includes deleted records. -/
theorem prepare_count_amended (store : List Rec) (isDel isPurged : Nat → Bool)
    (draw : Nat → Nat) (bound : Nat) (logicNum : Nat) (s1 : P1St)
    (h1 : pass1P store isDel isPurged draw bound (List.range logicNum) p1Init = .ok s1)
    (hne : store ≠ []) :
    s1.newPhysicId
      = ((List.range logicNum).filter (fun l => !isPurged l && !isDel l)).length ∧
    prepareCountN store isDel draw bound = some store.length := by
  constructor
  · have e := pass1P_ok_newPhysicId store isDel isPurged draw bound _ _ _ h1
    simpa [p1Init] using e
  · unfold prepareCountN
    rw [pass1N_recId]
    rw [show store.enum = List.enumFrom 0 store from rfl]
    rw [foldl_enumFrom_last store 0 n1Init.recId hne]
    have hl : 0 < store.length := List.length_pos.2 hne
    show some (0 + (store.length - 1) + 1) = some store.length
    congr 1
    omega

/-- Witness for `prepare_count_amended` on a one-record store. -/
theorem prepare_count_amended_witness :
    ([[5]] : List Rec) ≠ [] ∧
    prepareCountN [[5]] (fun _ => false) (fun _ => 0) 0 = some 1 :=
  ⟨by decide,
   (prepare_count_amended [[5]] (fun _ => false) (fun _ => false) (fun _ => 0) 0 1
     ⟨1, 1, 0, [], [5], [0], 1⟩ rfl (by decide)).2⟩

/-- C5 counterexample: with an empty store and one live logical id, the
`seekExact` miss at physical id 0 makes `build_by_iter` print the
diagnostic and call `abort()` — the process terminates; no recoverable
IntegrityError is raised. -/
theorem seek_miss_counterexample :
    (build_by_iter_purged [] (fun _ => false) (fun _ => false) (fun _ => 0) 0 1).2
      = .procAbort ⟨0, 0⟩ false := rfl

/-- C5 amended: when `seekExact` misses for a physical id computed by the
reconciliation walk, the build does not silently skip the record: it
terminates the process (`fprintf` + `abort()`) with a diagnostic naming
that physical id and the corresponding live logical id; the reported
physical id really has no record. -/
theorem seek_miss_aborts (store : List Rec) (isDel isPurged : Nat → Bool)
    (draw : Nat → Nat) (bound : Nat) (logicNum : Nat) (info : AbortInfo)
    (h : pass1P store isDel isPurged draw bound (List.range logicNum) p1Init = .error info) :
    (build_by_iter_purged store isDel isPurged draw bound logicNum).2
      = .procAbort info false ∧
    store[info.physicId]? = none ∧
    isPurged info.logicId = false ∧ isDel info.logicId = false ∧
    info.logicId < logicNum := by
  have hm := pass1P_error_miss store isDel isPurged draw bound _ _ _ h
  refine ⟨?_, hm.1, hm.2.1, hm.2.2.1, ?_⟩
  · unfold build_by_iter_purged
    rw [h]
  · simpa [List.mem_range] using hm.2.2.2

/-- Witness for `seek_miss_aborts`: a store of one record under three
logical ids of which id 1 is deleted; the live logical id 2 computes
physical id 2, which is absent. -/
theorem seek_miss_aborts_witness :
    pass1P [[3]] (fun n => n == 1) (fun _ => false) (fun _ => 0) 0 (List.range 3) p1Init
      = .error ⟨2, 2⟩ ∧
    (build_by_iter_purged [[3]] (fun n => n == 1) (fun _ => false) (fun _ => 0) 0 3).2
      = .procAbort ⟨2, 2⟩ false :=
  ⟨rfl,
   (seek_miss_aborts [[3]] (fun n => n == 1) (fun _ => false) (fun _ => 0) 0 3 ⟨2, 2⟩ rfl).1⟩

/-- C7: if the sampling pass collects zero samples, `emptyCheckProtect`
submits one more sample — the last record encountered if it is
non-empty, the fallback literal otherwise — so the sample set handed to
`prepare` is non-empty, in both branches of `build_by_iter`. -/
theorem sample_set_nonempty (store : List Rec) (isDel isPurged : Nat → Bool)
    (draw : Nat → Nat) (bound : Nat) (logicNum : Nat) (s1 : P1St)
    (h1 : pass1P store isDel isPurged draw bound (List.range logicNum) p1Init = .ok s1) :
    (s1.sampled = 0 →
      emptyCheckProtect s1.sampled s1.buf s1.samples
        = s1.samples ++ [if s1.buf = [] then fallbackSample else s1.buf]) ∧
    emptyCheckProtect s1.sampled s1.buf s1.samples ≠ [] ∧
    emptyCheckProtect (pass1N isDel draw bound store.enum n1Init).sampled
        (pass1N isDel draw bound store.enum n1Init).buf
        (pass1N isDel draw bound store.enum n1Init).samples ≠ [] := by
  refine ⟨?_, ?_, ?_⟩
  · intro h0
    rw [h0]
    exact emptyCheckProtect_zero s1.buf s1.samples
  · exact emptyCheckProtect_ne_nil _ _ _
      (pass1P_ok_samples_length store isDel isPurged draw bound _ _ _ h1 (by simp [p1Init]))
  · exact emptyCheckProtect_ne_nil _ _ _
      (pass1N_samples_length isDel draw bound store.enum n1Init (by simp [n1Init]))

/-- Witness for `sample_set_nonempty` on a one-record store where the draw
never samples. -/
theorem sample_set_nonempty_witness :
    pass1P [[9]] (fun _ => false) (fun _ => false) (fun _ => 0) 0 (List.range 1) p1Init
      = .ok ⟨1, 1, 0, [], [9], [0], 1⟩ ∧
    emptyCheckProtect 0 [9] [] ≠ [] := by
  refine ⟨rfl, ?_⟩
  exact (sample_set_nonempty [[9]] (fun _ => false) (fun _ => false) (fun _ => 0) 0 1
    ⟨1, 1, 0, [], [9], [0], 1⟩ rfl).2.1

/-- C6 counterexample: a store of one record under one logical id that the
purge bitmap marks purged — the walk visits 0 physical ids while the
store declares 1.  Both end-of-pass count checks fire, yet the build
completes and produces a store (with the mismatch only reported, as the
`true` flags record). -/
theorem count_mismatch_counterexample :
    (build_by_iter_purged [[7]] (fun _ => false) (fun _ => true) (fun _ => 0) 0 1).2
      = .completed ⟨true, true, 0, [fallbackSample], [], true⟩ := rfl

/-- C6 amended: a mismatch between the physical ids visited by a pass and
the store's declared record count is reported (the stderr diagnostics of
lines 219-223 and 246-250, recorded by the mismatch flags) but is not
fatal: whenever both loops run to completion, the build completes and
produces a store regardless of the flags. -/
theorem count_mismatch_nonfatal (store : List Rec) (isDel isPurged : Nat → Bool)
    (draw : Nat → Nat) (bound : Nat) (logicNum : Nat) (s1 : P1St) (s2 : P2St)
    (h1 : pass1P store isDel isPurged draw bound (List.range logicNum) p1Init = .ok s1)
    (h2 : pass2P store isDel isPurged (List.range logicNum) p2Init = .ok s2) :
    (build_by_iter_purged store isDel isPurged draw bound logicNum).2
      = .completed ⟨decide (s1.physicId ≠ store.length), decide (s2.physicId ≠ store.length),
                    s1.newPhysicId, emptyCheckProtect s1.sampled s1.buf s1.samples,
                    s2.submittedRecs, true⟩ := by
  unfold build_by_iter_purged
  rw [h1, h2]

/-- Witness for `count_mismatch_nonfatal`: two physical records, all
logical ids purged, so both counts mismatch yet the build completes. -/
theorem count_mismatch_nonfatal_witness :
    pass1P [[7], [8]] (fun _ => false) (fun _ => true) (fun _ => 0) 0 (List.range 1) p1Init
      = .ok p1Init ∧
    (build_by_iter_purged [[7], [8]] (fun _ => false) (fun _ => true) (fun _ => 0) 0 1).2
      = .completed ⟨true, true, 0, [fallbackSample], [], true⟩ :=
  ⟨rfl,
   count_mismatch_nonfatal [[7], [8]] (fun _ => false) (fun _ => true) (fun _ => 0) 0 1
     p1Init p2Init rfl rfl⟩

/-- C8 counterexample: with an empty store and one deleted (non-purged)
logical id, pass 1 succeeds, the guard is acquired, and pass 2 hits its
abort path — the process terminates while the guard is still held, so
the guard is not released on this failed build attempt. -/
theorem guard_discipline_counterexample :
    (build_by_iter_purged [] (fun _ => true) (fun _ => false) (fun _ => 0) 0 1).2
      = .procAbort ⟨0, 0⟩ true := rfl

/-- C8 amended: the memory guard is never held during the sizing and
sampling phases, is acquired only immediately before `prepare`, is held
across the preparing, recording and completing phases, and is released
at the end of every successfully completing build; a failing build
either aborts before acquisition (pass-1 miss, guard free) or terminates
the process while still holding the guard (pass-2 mismatch) — on that
failed path the guard is not released. -/
theorem guard_discipline (store : List Rec) (isDel isPurged : Nat → Bool)
    (draw : Nat → Nat) (bound : Nat) (logicNum : Nat) :
    (∀ ph b, (ph, b) ∈ (build_by_iter_purged store isDel isPurged draw bound logicNum).1 →
      ((ph = Phase.sizing ∨ ph = Phase.sampling) → b = false) ∧
      ((ph = Phase.preparing ∨ ph = Phase.recording ∨ ph = Phase.completing) → b = true)) ∧
    (∀ res, (build_by_iter_purged store isDel isPurged draw bound logicNum).2
        = .completed res → res.lockReleased = true) ∧
    (∀ info held, (build_by_iter_purged store isDel isPurged draw bound logicNum).2
        = .procAbort info held →
      (held = false ∧
        pass1P store isDel isPurged draw bound (List.range logicNum) p1Init = .error info) ∨
      (held = true ∧
        pass2P store isDel isPurged (List.range logicNum) p2Init = .error info)) := by
  cases h1 : pass1P store isDel isPurged draw bound (List.range logicNum) p1Init with
  | error info1 =>
    have hb : build_by_iter_purged store isDel isPurged draw bound logicNum
        = ([(Phase.sizing, false), (Phase.sampling, false)], .procAbort info1 false) := by
      unfold build_by_iter_purged
      rw [h1]
    rw [hb]
    refine ⟨?_, ?_, ?_⟩
    · intro ph b hmem
      simp only [List.mem_cons, List.not_mem_nil, or_false, Prod.mk.injEq] at hmem
      rcases hmem with ⟨rfl, rfl⟩ | ⟨rfl, rfl⟩ <;> exact ⟨fun _ => rfl, by decide⟩
    · intro res h
      simp at h
    · intro info held h
      simp only [BuildOut.procAbort.injEq] at h
      obtain ⟨rfl, rfl⟩ := h
      exact Or.inl ⟨rfl, rfl⟩
  | ok s1 =>
    cases h2 : pass2P store isDel isPurged (List.range logicNum) p2Init with
    | error info2 =>
      have hb : build_by_iter_purged store isDel isPurged draw bound logicNum
          = ([(Phase.sizing, false), (Phase.sampling, false),
              (Phase.preparing, true), (Phase.recording, true)], .procAbort info2 true) := by
        unfold build_by_iter_purged
        rw [h1, h2]
        rfl
      rw [hb]
      refine ⟨?_, ?_, ?_⟩
      · intro ph b hmem
        simp only [List.mem_cons, List.not_mem_nil, or_false, Prod.mk.injEq] at hmem
        rcases hmem with ⟨rfl, rfl⟩ | ⟨rfl, rfl⟩ | ⟨rfl, rfl⟩ | ⟨rfl, rfl⟩
        · exact ⟨fun _ => rfl, by decide⟩
        · exact ⟨fun _ => rfl, by decide⟩
        · exact ⟨by decide, fun _ => rfl⟩
        · exact ⟨by decide, fun _ => rfl⟩
      · intro res h
        simp at h
      · intro info held h
        simp only [BuildOut.procAbort.injEq] at h
        obtain ⟨rfl, rfl⟩ := h
        exact Or.inr ⟨rfl, rfl⟩
    | ok s2 =>
      have hb : build_by_iter_purged store isDel isPurged draw bound logicNum
          = ([(Phase.sizing, false), (Phase.sampling, false), (Phase.preparing, true),
              (Phase.recording, true), (Phase.completing, true)],
             .completed ⟨decide (s1.physicId ≠ store.length),
                         decide (s2.physicId ≠ store.length), s1.newPhysicId,
                         emptyCheckProtect s1.sampled s1.buf s1.samples,
                         s2.submittedRecs, true⟩) := by
        unfold build_by_iter_purged
        rw [h1, h2]
        rfl
      rw [hb]
      refine ⟨?_, ?_, ?_⟩
      · intro ph b hmem
        simp only [List.mem_cons, List.not_mem_nil, or_false, Prod.mk.injEq] at hmem
        rcases hmem with ⟨rfl, rfl⟩ | ⟨rfl, rfl⟩ | ⟨rfl, rfl⟩ | ⟨rfl, rfl⟩ | ⟨rfl, rfl⟩
        · exact ⟨fun _ => rfl, by decide⟩
        · exact ⟨fun _ => rfl, by decide⟩
        · exact ⟨by decide, fun _ => rfl⟩
        · exact ⟨by decide, fun _ => rfl⟩
        · exact ⟨by decide, fun _ => rfl⟩
      · intro res h
        simp only [BuildOut.completed.injEq] at h
        rw [← h]
      · intro info held h
        simp at h

/-- Witness for `guard_discipline`: on a one-record build the preparing
phase runs with the guard held. -/
theorem guard_discipline_witness :
    (Phase.preparing, true)
      ∈ (build_by_iter_purged [[1]] (fun _ => false) (fun _ => false) (fun _ => 0) 0 1).1 ∧
    true = true :=
  ⟨by decide,
   ((guard_discipline [[1]] (fun _ => false) (fun _ => false) (fun _ => 0) 0 1).1
     Phase.preparing true (by decide)).2 (Or.inl rfl)⟩

end TerarkNlt
